import Mathlib

/-!
Verification development for the bank-statement PDF transaction pipeline
(`src/pdf_processor.py`).  The Python functions are shallowly embedded as
executable Lean definitions: pandas DataFrames become header/row (or
name/column) lists, `decimal.Decimal` becomes an explicit sign/coefficient/
scale structure with the default-context arithmetic of Python's `decimal`
module (precision 28, ROUND_HALF_EVEN), and raised exceptions become
`Except`/`Option` error values.
-/

namespace StatementParser

/-! ## Python `decimal.Decimal` model

A value is `(if neg then -1 else 1) * mant / 10 ^ scale`.  Python stores an
arbitrary integer exponent; every decimal this program builds from statement
text has a non-positive exponent, so we store `scale = -exponent ≥ 0`.  A
rounded result whose exponent would be positive is stored value-equivalently
with trailing zeros in the coefficient and `scale = 0` (such results feed
only value-based comparisons, never string output).  -/
structure PyDecimal where
  neg : Bool
  mant : Nat
  scale : Nat
deriving DecidableEq, Repr

deriving instance DecidableEq for Except

def sgnMant (d : PyDecimal) : Int :=
  if d.neg then -(d.mant : Int) else (d.mant : Int)

/-- Exact rational value of a `PyDecimal`. -/
def val (d : PyDecimal) : ℚ :=
  (sgnMant d : ℚ) / (10 : ℚ) ^ d.scale

/-- Python's default decimal context rounds every arithmetic result to at
most 28 significant digits (ROUND_HALF_EVEN).  `m` is the exact coefficient
at scale `sc`; construction from a string is exact and does not pass through
here. -/
def roundCtx (neg : Bool) (m : Nat) (sc : Nat) : PyDecimal :=
  if m < 10 ^ 28 then
    ⟨neg && decide (m ≠ 0), m, sc⟩
  else
    let digits := (Nat.toDigits 10 m).length
    let drop := digits - 28
    let q := m / 10 ^ drop
    let r := m % 10 ^ drop
    let half := 5 * 10 ^ (drop - 1)
    let q2 := if r > half || (r == half && q % 2 == 1) then q + 1 else q
    let qd := if q2 = 10 ^ 28 then (10 ^ 27, drop + 1) else (q2, drop)
    if qd.2 ≤ sc then ⟨neg && decide (qd.1 ≠ 0), qd.1, sc - qd.2⟩
    else ⟨neg && decide (qd.1 ≠ 0), qd.1 * 10 ^ (qd.2 - sc), 0⟩

/-- The exact integer sum of two decimals aligned to their common
(smallest) exponent, i.e. to `scale = max`. -/
def alignedInt (a b : PyDecimal) : Int :=
  sgnMant a * 10 ^ (max a.scale b.scale - a.scale) +
    sgnMant b * 10 ^ (max a.scale b.scale - b.scale)

/-- Python `Decimal.__add__` under the default context. -/
def dAdd (a b : PyDecimal) : PyDecimal :=
  let c := alignedInt a b
  roundCtx (decide (c < 0)) c.natAbs (max a.scale b.scale)

def dZero : PyDecimal := ⟨false, 0, 0⟩

/-- Python `sum()` over a list of decimals: a left fold starting from zero, each
step a context addition (this is what `Series.sum` does on object-dtype
decimal columns). -/
def dSum (l : List PyDecimal) : PyDecimal := l.foldl dAdd dZero

/-- Python `Decimal.__eq__`: exact numeric comparison (never rounded). -/
def dEq (a b : PyDecimal) : Bool :=
  sgnMant a * 10 ^ b.scale == sgnMant b * 10 ^ a.scale

/-- Python `Decimal.__neg__`: negation of a nonzero value flips the sign,
negation of zero yields positive zero; the result is rounded by the
context like every arithmetic operation. -/
def dNegate (d : PyDecimal) : PyDecimal :=
  roundCtx (if d.mant = 0 then false else !d.neg) d.mant d.scale

def digitChar (m : Nat) : Char := Char.ofNat (48 + m)

/-- Decimal digit characters of a natural number, most significant first.
`fuel` only makes the recursion structural; with `fuel = n` it is never
exhausted (the number of divisions by ten needed is at most `n`). -/
def natDigitsF : Nat → Nat → List Char
  | 0, n => [digitChar n]
  | fuel + 1, n =>
    if n < 10 then [digitChar n]
    else natDigitsF fuel (n / 10) ++ [digitChar (n % 10)]

def natDigits (n : Nat) : List Char := natDigitsF n n

/-- The coefficient digits of `str(Decimal)`, left-padded with zeros so
that at least one digit sits left of the point. -/
def padDigits (mant scale : Nat) : List Char :=
  if (natDigits mant).length ≤ scale then
    List.replicate (scale + 1 - (natDigits mant).length) '0' ++ natDigits mant
  else natDigits mant

/-- Python `str(Decimal)` for the non-scientific case (exponent ≤ 0, which
covers every decimal this program prints): optional minus sign, integer
digits (at least one, zero-padded), and for `scale > 0` a point followed by
exactly `scale` fraction digits. -/
def dStr (d : PyDecimal) : String :=
  let ds2 := padDigits d.mant d.scale
  let core := if d.scale = 0 then ds2
    else ds2.take (ds2.length - d.scale) ++ '.' :: ds2.drop (ds2.length - d.scale)
  String.mk (if d.neg then '-' :: core else core)

/-! ## `clean_amount` -/

def digitsToNat (cs : List Char) : Nat :=
  cs.foldl (fun n c => 10 * n + (c.toNat - 48)) 0

/-- The `amount_str.startswith('- ')` normalization: a minus sign followed by
one single space has the space removed
(`amount_str = '-' + amount_str[2:]`). -/
def normalizeMinus (s : String) : String :=
  match s.toList with
  | '-' :: ' ' :: rest => String.mk ('-' :: rest)
  | _ => s

/-- Python's `$` anchor (without MULTILINE) matches at the end of the string
or just before one final newline. -/
def dropFinalNewline (cs : List Char) : List Char :=
  match cs.getLast? with
  | some c => if c = '\n' then cs.dropLast else cs
  | none => cs

def isAmtChar (c : Char) : Bool := c.isDigit || c == ',' || c == '-'

/-- Python `re.search(r'([\d,-]+\.\d+)$', s)`: the trailing substring made of a
nonempty run of digits/commas/minuses, a point, and a nonempty run of
digits reaching the (newline-adjusted) end.  Returns the part before the
point and the fraction digits. -/
def trailingMatch (s : String) : Option (List Char × List Char) :=
  let rev := (dropFinalNewline s.toList).reverse
  match rev.dropWhile Char.isDigit, rev.takeWhile Char.isDigit with
  | '.' :: beforeDot, f :: fs =>
    let runR := beforeDot.takeWhile isAmtChar
    if runR.isEmpty then none else some (runR.reverse, (f :: fs).reverse)
  | _, _ => none

def stripCommas (cs : List Char) : List Char := cs.filter (fun c => !(c == ','))

/-- Here `noMatch` models the `ValueError` raised when the regex does not match
("Could not extract amount from string"); `invalidDecimal` models the
`decimal.InvalidOperation` raised by `Decimal(...)` when the matched,
comma-stripped text is not a well-formed numeral (a minus not in front). -/
inductive CleanErr where
  | noMatch
  | invalidDecimal
deriving DecidableEq, Repr

/-- The sign and digit text of a decimal literal's integer part, as read by
Python's `Decimal(...)` constructor grammar. -/
def readIntPart (cs : List Char) : Bool × List Char :=
  match cs with
  | '-' :: t => (true, t)
  | t => (false, t)

/-- Function `clean_amount` from `pdf_processor.py`: normalize a `'- '` prefix, take
the trailing regex match, strip commas, and build the exact decimal;
`Decimal(...)` accepts the text only when the characters left of the point
are an optional minus followed solely by digits. -/
def clean_amount (s : String) : Except CleanErr PyDecimal :=
  match trailingMatch (normalizeMinus s) with
  | none => .error .noMatch
  | some (pre, frac) =>
    if ((readIntPart (stripCommas pre)).2).all Char.isDigit then
      .ok ⟨(readIntPart (stripCommas pre)).1,
        digitsToNat ((readIntPart (stripCommas pre)).2 ++ frac), frac.length⟩
    else .error .invalidDecimal

/-- Whether Python's `Decimal(text)` accepts the comma-stripped integer part
of a match: an optional leading minus followed only by digits. -/
def validIntPart (cs : List Char) : Bool :=
  (readIntPart cs).2.all Char.isDigit

/-- Modelled from the spec's words for claim C2 ("the numeric value of the
matched substring with sign and comma-stripping applied"): the rational
value of a matched `(integer-part, fraction-digits)` pair after stripping
commas, when that text is a well-formed signed decimal numeral. -/
def specDecimalVal (pre frac : List Char) : Option ℚ :=
  if ((readIntPart (stripCommas pre)).2).all Char.isDigit ∧ frac.all Char.isDigit ∧ frac ≠ [] then
    some ((if (readIntPart (stripCommas pre)).1 then -1 else 1) *
      ((digitsToNat (readIntPart (stripCommas pre)).2 : ℚ) +
        (digitsToNat frac : ℚ) / (10 : ℚ) ^ frac.length))
  else none

/-- Modelled from the spec's words for claim C3: the claim's own trailing
pattern, "optional digits/commas/minus, then a decimal point, then one or
more digits, at the end of the string" (the prefix run may be empty). -/
def specClaimPattern (s : String) : Bool :=
  let rev := s.toList.reverse
  !(rev.takeWhile Char.isDigit).isEmpty &&
    ((rev.dropWhile Char.isDigit).head? == some '.')

/-- Number of digits after the final point of a rendered cell, when the
cell ends in a point followed only by digits. -/
def fracDigitsOfString (s : String) : Option Nat :=
  let rev := s.toList.reverse
  match rev.dropWhile Char.isDigit with
  | '.' :: _ => some (rev.takeWhile Char.isDigit).length
  | _ => none

/-- Exactness predicates for Python's context arithmetic: an addition is
exact when the exact aligned coefficient fits in 28 digits, and a fold of
additions is exact when every step is. -/
def addExactB (a b : PyDecimal) : Bool := decide ((alignedInt a b).natAbs < 10 ^ 28)

def chainExactB : PyDecimal → List PyDecimal → Bool
  | _, [] => true
  | acc, x :: xs => addExactB acc x && chainExactB (dAdd acc x) xs

/-! ## Date parsing: `pd.to_datetime(s, format='%d/%m/%y')`

Modelled on CPython/pandas strptime: `%d` and `%m` are one or two digits
(value ranges enforced), `%y` is exactly two digits mapped to 2000-2068 /
1969-1999, the whole string must be consumed, and the resulting calendar
date must exist. -/

structure PyDate where
  year : Nat
  month : Nat
  day : Nat
deriving DecidableEq, Repr

def isLeap (y : Nat) : Bool := y % 4 = 0 && (y % 100 ≠ 0 || y % 400 = 0)

def daysInMonth (y m : Nat) : Nat :=
  if m = 2 then (if isLeap y then 29 else 28)
  else if m = 4 || m = 6 || m = 9 || m = 11 then 30
  else 31

def parseDate (s : String) : Option PyDate :=
  let cs := s.toList
  let dds := cs.takeWhile Char.isDigit
  if dds.length = 0 || 2 < dds.length then none else
  match cs.dropWhile Char.isDigit with
  | '/' :: r2 =>
    let mds := r2.takeWhile Char.isDigit
    if mds.length = 0 || 2 < mds.length then none else
    match r2.dropWhile Char.isDigit with
    | '/' :: r4 =>
      if r4.length = 2 && r4.all Char.isDigit then
        let d := digitsToNat dds
        let m := digitsToNat mds
        let yy := digitsToNat r4
        let y := if yy ≤ 68 then 2000 + yy else 1900 + yy
        if 1 ≤ m && m ≤ 12 && 1 ≤ d && d ≤ daysInMonth y m then some ⟨y, m, d⟩
        else none
      else none
    | _ => none
  | _ => none

/-- Predicate `is_valid_date` in `clean_transaction_data`: the coerced parse is not
`NaT`. -/
def isValidDate (s : String) : Bool := (parseDate s).isSome

/-- ISO rendering of a coerced date (`to_csv` output form). -/
def dateIso (d : PyDate) : String :=
  let pad2 := fun (n : Nat) => if n < 10 then "0" ++ toString n else toString n
  toString d.year ++ "-" ++ pad2 d.month ++ "-" ++ pad2 d.day

/-! ## Tables

A raw docling table is modelled as its pandas DataFrame: an ordered list of
named columns whose cells are `Option String` (`none` is a NaN/missing
cell).  After `clean_columns` every cell is a `String`. -/

abbrev RawTable := List (String × List (Option String))

structure StrTable where
  header : List String
  rows : List (List String)
deriving DecidableEq, Repr

structure OTable where
  header : List String
  rows : List (List (Option String))
deriving DecidableEq, Repr

/-- Pandas `astype(str)` on a cell: a missing value prints as `"nan"`. -/
def cellStr : Option String → String
  | none => "nan"
  | some s => s

/-- The series concatenation built by `clean_columns` for one run of
same-named columns: first cell string, then `+ " " +` each later one. -/
def mergeCells (cells : List (Option String)) : String :=
  match cells with
  | [] => ""
  | c :: cs => cs.foldl (fun a x => a ++ " " ++ cellStr x) (cellStr c)

/-- Pandas `combined_col.replace('nan', '', regex=False)` on one cell: pandas
replaces a value only when the whole cell equals `'nan'`. -/
def replaceNanCell (s : String) : String := if s = "nan" then "" else s

/-- One merged output column from the columns of a run. -/
def mergeRunColumn (cols : List (List (Option String))) : List String :=
  cols.transpose.map (fun cells => replaceNanCell (mergeCells cells))

/-- Maximal runs of adjacent columns sharing one header name, in order
(the source's look-ahead loop over column indices).  `fuel` only bounds
the recursion so that it is structural; starting from the list length it
is never exhausted, since the remainder after a run is a suffix of the
tail. -/
def groupRunsF : Nat → List (String × α) → List (String × List α)
  | _, [] => []
  | 0, _ :: _ => []
  | fuel + 1, (n, c) :: rest =>
    (n, c :: (rest.takeWhile (fun p => p.1 == n)).map (fun p => p.2)) ::
      groupRunsF fuel (rest.dropWhile (fun p => p.1 == n))

def groupRuns (l : List (String × α)) : List (String × List α) :=
  groupRunsF l.length l

/-- Assignment `new_df[col_name] = combined_col`: assignment into a DataFrame by
column name creates the column at the end or overwrites an existing column
of that name in place. -/
def upsert (k : String) (v : List String) : List (String × List String) → List (String × List String)
  | [] => [(k, v)]
  | (k2, v2) :: rest => if k2 = k then (k, v) :: rest else (k2, v2) :: upsert k v rest

/-- Function `clean_columns` from `pdf_processor.py`, as the resulting ordered
name/column mapping. -/
def clean_columns (cols : RawTable) : List (String × List String) :=
  (groupRuns cols).foldl (fun acc r => upsert r.1 (mergeRunColumn r.2) acc) []

/-- View an ordered name/column mapping as a header plus row list. -/
def toStrTable (cols : List (String × List String)) : StrTable :=
  ⟨cols.map (fun p => p.1), (cols.map (fun p => p.2)).transpose⟩

/-- A table of strings seen through `notna`: no cell is missing. -/
def liftTable (t : StrTable) : OTable :=
  ⟨t.header, t.rows.map (fun r => r.map some)⟩

/-! ## `validate_transaction_table_columns` -/

def expectedKeywords : List (List String) :=
  [["TRANS. DATE"], ["POSTING DATE"], ["DESCRIPTION"], ["AMOUNT", "BAHT"]]

def containsSub (big small : String) : Bool :=
  decide (small.toList <:+: big.toList)

/-- Python `str.upper()` (character-wise; the header keywords are ASCII). -/
def upperStr (s : String) : String := String.mk (s.toList.map Char.toUpper)

def validate_transaction_table_columns (header : List String) : Bool :=
  header.length == 4 &&
    (header.zip expectedKeywords).all
      (fun p => p.2.all (fun kw => containsSub (upperStr p.1) kw))

/-! ## `clean_transaction_data` -/

def validDateCell : Option String → Bool
  | none => false
  | some s => isValidDate s

def validAmountCell : Option String → Bool
  | none => false
  | some s =>
    match clean_amount s with
    | .ok _ => true
    | .error _ => false

/-- The part of `clean_transaction_data` after the null-row drop:
`df.drop(df.columns[[1]], axis=1)` removes every column whose *label*
equals the second column's name, then rows failing the date check on the
first remaining column or the amount check on the last remaining column
are dropped.  (The source would raise an IndexError for a table with fewer
than two columns; such tables never reach this function in the pipeline.) -/
def sanitizeRest (t : OTable) : OTable :=
  let lbl := t.header.getD 1 ""
  let h2 := t.header.filter (fun n => !(n == lbl))
  let dropRow := fun (r : List (Option String)) =>
    ((t.header.zip r).filter (fun p => !(p.1 == lbl))).map (fun p => p.2)
  let rows2 := t.rows.map dropRow
  let keep := fun (r : List (Option String)) =>
    validDateCell (r.getD 0 none) && validAmountCell (r.getLast?.getD none)
  ⟨h2, rows2.filter keep⟩

/-- Function `clean_transaction_data` from `pdf_processor.py`: drop rows with any
null cell, then drop the second column (by label) and keep only rows with
a valid date in the first and a valid amount in the last remaining
column. -/
def clean_transaction_data (t : OTable) : OTable :=
  sanitizeRest ⟨t.header, t.rows.filter (fun r => r.all Option.isSome)⟩

/-! ## `convert_data_types`, totals, filter, sign flip, CSV -/

structure TxRow where
  date : PyDate
  desc : String
  amount : PyDecimal
deriving DecidableEq, Repr

/-- Coercion of one sanitized row (three columns): first cell to datetime,
last cell to decimal; failure is an uncaught exception. -/
def coerceRow : List (Option String) → Except Unit TxRow
  | [some d, some x, some a] =>
    match parseDate d, clean_amount a with
    | some dt, .ok am => .ok ⟨dt, x, am⟩
    | _, _ => .error ()
  | _ => .error ()

def coerceRows : List (List (Option String)) → Except Unit (List TxRow)
  | [] => .ok []
  | r :: rs =>
    match coerceRow r, coerceRows rs with
    | .ok x, .ok xs => .ok (x :: xs)
    | _, _ => .error ()

/-- Function `convert_data_types` from `pdf_processor.py` (column-wise in the
source; success and the produced rows agree with this row-wise form). -/
def convert_data_types (t : OTable) : Except Unit (List TxRow) :=
  coerceRows t.rows

/-- Function `validate_transaction_totals`: raises iff
`starting_balance + df.iloc[:, -1].sum() != ending_balance` under Python
decimal arithmetic. -/
def validate_transaction_totals (amounts : List PyDecimal) (startB endB : PyDecimal) :
    Except Unit Unit :=
  if dEq (dAdd startB (dSum amounts)) endB then .ok () else .error ()

/-- Function `filter_payment_transactions`: drop rows with a negative amount whose
description starts with `'Payment'`. -/
def filter_payment_transactions (rows : List TxRow) : List TxRow :=
  rows.filter (fun r =>
    !(decide (sgnMant r.amount < 0) && ("Payment".toList.isPrefixOf r.desc.toList)))

/-- Function `flip_amount_sign`: negate every amount. -/
def flip_amount_sign (rows : List TxRow) : List TxRow :=
  rows.map (fun r => ⟨r.date, r.desc, dNegate r.amount⟩)

/-- The CSV written by `save_to_csv`: `utf-8-sig` encoding (a UTF-8
byte-order mark), the header row, then one row per transaction with cells
rendered by `str`. -/
structure Csv where
  bom : Bool
  headerRow : List String
  dataRows : List (List String)
deriving DecidableEq, Repr

def save_to_csv (header : List String) (rows : List TxRow) : Csv :=
  ⟨true, header, rows.map (fun r => [dateIso r.date, r.desc, dStr r.amount])⟩

/-! ## `process_pdf` -/

/-- Outcome of one pipeline run.  Every raised exception is caught at the
bottom of `process_pdf` (traceback printed, no file written); the error
constructors record where the run aborted. -/
inductive Outcome where
  | noTransactionTables
  | preError
  | coercionError
  | reconciliationError
  | saved (csv : Csv)
deriving DecidableEq, Repr

/-- Per-table stage: `clean_columns` then schema validation. -/
def acceptedTables (ts : List RawTable) : List StrTable :=
  (ts.map (fun cols => toStrTable (clean_columns cols))).filter
    (fun t => validate_transaction_table_columns t.header)

/-- Concatenation `pd.concat(transaction_dfs)` for tables sharing one header (the
accepted statement tables all carry the same four column names): the rows
are appended under the first table's header. -/
def combineTables : List StrTable → Option StrTable
  | [] => none
  | t :: rest => some ⟨t.header, ((t :: rest).map (fun u => u.rows)).flatten⟩

/-- Balance anchors: `clean_amount` of the last cell of the first and of
the last row of the merged, pre-sanitization table (`iloc[0, -1]`,
`iloc[-1, -1]`); an empty table or a failed parse raises. -/
def anchorsOf (ct : StrTable) : Except Unit (PyDecimal × PyDecimal) :=
  match ct.rows.head?, ct.rows.getLast? with
  | some r0, some rn =>
    match clean_amount (r0.getLast?.getD ""), clean_amount (rn.getLast?.getD "") with
    | .ok s, .ok e => .ok (s, e)
    | _, _ => .error ()
  | _, _ => .error ()

/-- Function `process_pdf` from `pdf_processor.py`, from the extracted raw tables
to the run outcome. -/
def process_pdf (ts : List RawTable) : Outcome :=
  match combineTables (acceptedTables ts) with
  | none => .noTransactionTables
  | some ct =>
    match anchorsOf ct with
    | .error _ => .preError
    | .ok (s, e) =>
      let san := clean_transaction_data (liftTable ct)
      match convert_data_types san with
      | .error _ => .coercionError
      | .ok txs =>
        if dEq (dAdd s (dSum (txs.map (fun r => r.amount)))) e then
          .saved (save_to_csv san.header (flip_amount_sign (filter_payment_transactions txs)))
        else .reconciliationError

/-- The amount column of the CSV written by a run, when one was written. -/
def outcomeAmountCells : Outcome → Option (List String)
  | .saved csv => some (csv.dataRows.map (fun r => r.getD 2 ""))
  | _ => none


/-- A concrete extracted document whose statement rows sum to the stated
ending balance, with a one-fraction-digit amount. -/
def exampleBalancedDoc : RawTable :=
  [("TRANS. DATE", [some "", some "02/01/23", some ""]),
   ("POSTING DATE", [some "", some "03/01/23", some ""]),
   ("DESCRIPTION", [some "Start", some "Coffee", some "End"]),
   ("AMOUNT (BAHT)", [some "0.0", some "100.5", some "100.5"])]

/-- A concrete extracted document whose stated ending balance does not
match the transaction sum. -/
def exampleImbalancedDoc : RawTable :=
  [("TRANS. DATE", [some "", some "02/01/23", some ""]),
   ("POSTING DATE", [some "", some "03/01/23", some ""]),
   ("DESCRIPTION", [some "Start", some "Coffee", some "End"]),
   ("AMOUNT (BAHT)", [some "0.00", some "100.50", some "999.00"])]

/-!
# Lemmas
-/

theorem pow10_ne (n : ℕ) : (10 : ℚ) ^ n ≠ 0 := pow_ne_zero _ (by norm_num)

theorem roundCtx_val_exact (neg : Bool) (m sc : ℕ) (h : m < 10 ^ 28) :
    val (roundCtx neg m sc) = (if neg then -(m : ℚ) else (m : ℚ)) / 10 ^ sc := by
  unfold roundCtx
  rw [if_pos h]
  by_cases hm : m = 0
  · subst hm; cases neg <;> simp [val, sgnMant]
  · cases neg <;> simp [val, sgnMant, hm]

theorem aligned_div (x : ℤ) (k sc : ℕ) (h : k ≤ sc) :
    ((x : ℚ) * 10 ^ (sc - k)) / 10 ^ sc = (x : ℚ) / 10 ^ k := by
  rw [div_eq_div_iff (pow10_ne _) (pow10_ne _), mul_assoc, ← pow_add,
    Nat.sub_add_cancel h]

theorem dAdd_val_exact (a b : PyDecimal) (h : (alignedInt a b).natAbs < 10 ^ 28) :
    val (dAdd a b) = val a + val b := by
  unfold dAdd
  rw [roundCtx_val_exact _ _ _ h]
  have hc : (if decide (alignedInt a b < 0) = true then -((alignedInt a b).natAbs : ℚ)
      else ((alignedInt a b).natAbs : ℚ)) = ((alignedInt a b : ℤ) : ℚ) := by
    by_cases hneg : alignedInt a b < 0
    · rw [if_pos (by simpa using hneg)]
      rw [Int.cast_natAbs]
      rw [abs_of_neg (by exact_mod_cast hneg)]
      push_cast
      ring
    · rw [if_neg (by simpa using hneg)]
      rw [Int.cast_natAbs, abs_of_nonneg (by exact_mod_cast not_lt.1 hneg)]
  rw [hc]
  unfold alignedInt
  push_cast
  rw [add_div, aligned_div _ _ _ (le_max_left a.scale b.scale),
    aligned_div _ _ _ (le_max_right a.scale b.scale)]
  rfl

theorem dEq_iff (a b : PyDecimal) : dEq a b = true ↔ val a = val b := by
  unfold dEq val
  rw [beq_iff_eq, div_eq_div_iff (pow10_ne _) (pow10_ne _)]
  constructor
  · intro h; exact_mod_cast h
  · intro h; exact_mod_cast h

theorem val_dZero : val dZero = 0 := by simp [val, dZero, sgnMant]

theorem chainExactB_sum (l : List PyDecimal) :
    ∀ acc, chainExactB acc l = true → val (l.foldl dAdd acc) = val acc + (l.map val).sum := by
  induction l with
  | nil => intro acc _; simp
  | cons x xs ih =>
    intro acc h
    simp only [chainExactB, Bool.and_eq_true] at h
    simp only [List.foldl_cons, List.map_cons, List.sum_cons]
    rw [ih _ h.2, dAdd_val_exact _ _ (of_decide_eq_true h.1)]
    ring

theorem dSum_val (l : List PyDecimal) (h : chainExactB dZero l = true) :
    val (dSum l) = (l.map val).sum := by
  have := chainExactB_sum l dZero h
  rwa [val_dZero, zero_add] at this

theorem digitsToNat_aux (b : List Char) :
    ∀ n, b.foldl (fun n c => 10 * n + (c.toNat - 48)) n
      = n * 10 ^ b.length + b.foldl (fun n c => 10 * n + (c.toNat - 48)) 0 := by
  induction b with
  | nil => intro n; simp
  | cons c cs ih =>
    intro n
    simp only [List.foldl_cons, List.length_cons]
    rw [ih (10 * n + (c.toNat - 48)), ih (10 * 0 + (c.toNat - 48))]
    ring

theorem digitsToNat_append (a b : List Char) :
    digitsToNat (a ++ b) = digitsToNat a * 10 ^ b.length + digitsToNat b := by
  unfold digitsToNat
  rw [List.foldl_append, digitsToNat_aux]

theorem clean_amount_of_match (s : String) (pre frac : List Char)
    (hm : trailingMatch (normalizeMinus s) = some (pre, frac)) :
    clean_amount s =
      if ((readIntPart (stripCommas pre)).2).all Char.isDigit then
        Except.ok ⟨(readIntPart (stripCommas pre)).1,
          digitsToNat ((readIntPart (stripCommas pre)).2 ++ frac), frac.length⟩
      else Except.error CleanErr.invalidDecimal := by
  unfold clean_amount
  rw [hm]

theorem clean_amount_of_noMatch (s : String)
    (hm : trailingMatch (normalizeMinus s) = none) :
    clean_amount s = Except.error CleanErr.noMatch := by
  unfold clean_amount
  rw [hm]

theorem list_len4 {α : Type _} (l : List α) (h : l.length = 4) :
    ∃ a b c d, l = [a, b, c, d] := by
  rcases l with _ | ⟨a, _ | ⟨b, _ | ⟨c, _ | ⟨d, _ | ⟨e, t⟩⟩⟩⟩⟩ <;>
    first
      | exact ⟨a, b, c, d, rfl⟩
      | simp at h

theorem isPrefixOf_eq_decide (l m : List Char) : l.isPrefixOf m = decide (l <+: m) := by
  by_cases hp : l <+: m
  · simp [hp, List.isPrefixOf_iff_prefix]
  · rw [decide_eq_false hp, ← Bool.not_eq_true]
    exact fun hc => absurd ( List.isPrefixOf_iff_prefix.1 hc) hp

theorem sgnMant_neg_iff (d : PyDecimal) : sgnMant d < 0 ↔ val d < 0 := by
  have hp : (0 : ℚ) < 10 ^ d.scale := by positivity
  unfold val
  rw [div_neg_iff]
  constructor
  · intro h
    exact Or.inr ⟨by exact_mod_cast h, hp⟩
  · rintro (⟨_, h2⟩ | ⟨h1, _⟩)
    · exact absurd h2 (not_lt.2 hp.le)
    · exact_mod_cast h1

/-!
# Claims
-/

/-- C1 (amended): the reconciliation step raises iff
`startingBalance + Σ amounts ≠ endingBalance` under exact decimal
arithmetic, **provided** every addition performed by the summation and the
final comparison stays within the 28 significant digits of Python's
default decimal context; the equality comparison itself is exact, with no
tolerance. -/
theorem c1_amended_reconciliation_iff (amounts : List PyDecimal) (s e : PyDecimal)
    (h1 : chainExactB dZero amounts = true)
    (h2 : addExactB s (dSum amounts) = true) :
    validate_transaction_totals amounts s e = Except.error () ↔
      val s + (amounts.map val).sum ≠ val e := by
  have hadd : val (dAdd s (dSum amounts)) = val s + (amounts.map val).sum := by
    rw [dAdd_val_exact _ _ (of_decide_eq_true h2), dSum_val _ h1]
  unfold validate_transaction_totals
  by_cases hq : dEq (dAdd s (dSum amounts)) e = true
  · rw [if_pos hq]
    have heq := (dEq_iff _ _).1 hq
    rw [hadd] at heq
    simp [heq]
  · rw [if_neg hq]
    have hne : val s + (amounts.map val).sum ≠ val e := fun hEq => by
      exact hq ((dEq_iff _ _).2 (by rw [hadd]; exact hEq))
    simp [hne]

/-- C1 witness: a concrete balanced run (0.00 + 1000.00 + 2000.00 =
3000.00) satisfying the exactness hypotheses, where the amended theorem
applies. -/
theorem c1_witness :
    chainExactB dZero [⟨false, 100000, 2⟩, ⟨false, 200000, 2⟩] = true ∧
    addExactB ⟨false, 0, 2⟩ (dSum [⟨false, 100000, 2⟩, ⟨false, 200000, 2⟩]) = true ∧
    (validate_transaction_totals [⟨false, 100000, 2⟩, ⟨false, 200000, 2⟩]
        ⟨false, 0, 2⟩ ⟨false, 300000, 2⟩ = Except.error () ↔
      val ⟨false, 0, 2⟩ + ([(⟨false, 100000, 2⟩ : PyDecimal), ⟨false, 200000, 2⟩].map val).sum
        ≠ val ⟨false, 300000, 2⟩) :=
  ⟨by decide, by decide,
    c1_amended_reconciliation_iff [⟨false, 100000, 2⟩, ⟨false, 200000, 2⟩]
      ⟨false, 0, 2⟩ ⟨false, 300000, 2⟩ (by decide) (by decide)⟩

/-- C1 counterexample: with a starting (and equal ending) balance of
10^26 and one sanitized amount of 0.01, the exact sum differs from the
ending balance, yet `validate_transaction_totals` does not raise: Python's
default 28-digit context rounds the 0.01 away in
`starting_balance + total_amount`, so the check is not exact decimal
arithmetic for all inputs. -/
theorem c1_counterexample :
    validate_transaction_totals [⟨false, 1, 2⟩] ⟨false, 10 ^ 28, 2⟩ ⟨false, 10 ^ 28, 2⟩
        = Except.ok () ∧
      val ⟨false, 10 ^ 28, 2⟩ + ([(⟨false, 1, 2⟩ : PyDecimal)].map val).sum
        ≠ val ⟨false, 10 ^ 28, 2⟩ := by
  constructor
  · decide
  · simp only [List.map_cons, List.map_nil, List.sum_cons, List.sum_nil]
    norm_num [val, sgnMant]

/-- C2 (amended): whenever the string, after the source's `'- '`
normalization (a minus followed by one single space; other whitespace is
not normalized), has a trailing match of the numeric pattern whose
comma-stripped text is a well-formed signed numeral, `clean_amount`
returns exactly its decimal value. -/
theorem c2_amended_parse_value (s : String) (pre frac : List Char) (q : ℚ)
    (hm : trailingMatch (normalizeMinus s) = some (pre, frac))
    (hv : specDecimalVal pre frac = some q) :
    ∃ d, clean_amount s = Except.ok d ∧ val d = q := by
  have he := clean_amount_of_match s pre frac hm
  unfold specDecimalVal at hv
  by_cases hcond : (((readIntPart (stripCommas pre)).2).all Char.isDigit
      ∧ frac.all Char.isDigit ∧ frac ≠ [])
  · rw [if_pos hcond] at hv
    obtain ⟨hds, _, _⟩ := hcond
    rw [if_pos hds] at he
    refine ⟨_, he, ?_⟩
    have hq := Option.some.inj hv
    rw [← hq]
    simp only [val, sgnMant]
    rw [digitsToNat_append]
    cases hsgn : (readIntPart (stripCommas pre)).1
    · simp only [hsgn, Bool.false_eq_true, if_false]
      push_cast
      field_simp
      try ring
    · simp only [hsgn, if_true]
      push_cast
      field_simp
      try ring
  · rw [if_neg hcond] at hv
    exact absurd hv (by simp)

/-- C2 witness: the amended theorem applied at `"- 1,000.00"` (single
space removed, sign applied, commas stripped), plus the other two spec
examples. -/
theorem c2_witness :
    trailingMatch (normalizeMinus "- 1,000.00")
        = some (['-', '1', ',', '0', '0', '0'], ['0', '0']) ∧
    specDecimalVal ['-', '1', ',', '0', '0', '0'] ['0', '0'] = some (-1000) ∧
    (∃ d, clean_amount "- 1,000.00" = Except.ok d ∧ val d = -1000) ∧
    (∃ d, clean_amount "Total: 1,000.00" = Except.ok d ∧ val d = 1000) ∧
    clean_amount "invalid" = Except.error CleanErr.noMatch := by
  have hv1 : specDecimalVal ['-', '1', ',', '0', '0', '0'] ['0', '0'] = some (-1000) := by
    unfold specDecimalVal
    rw [if_pos ⟨by decide, by decide, by decide⟩]
    have h1 : digitsToNat (readIntPart (stripCommas ['-', '1', ',', '0', '0', '0'])).2 = 1000 := by
      decide
    have h2 : digitsToNat ['0', '0'] = 0 := by decide
    have h3 : (readIntPart (stripCommas ['-', '1', ',', '0', '0', '0'])).1 = true := by decide
    rw [h1, h2, h3]
    norm_num
  have hv2 : specDecimalVal ['1', ',', '0', '0', '0'] ['0', '0'] = some 1000 := by
    unfold specDecimalVal
    rw [if_pos ⟨by decide, by decide, by decide⟩]
    have h1 : digitsToNat (readIntPart (stripCommas ['1', ',', '0', '0', '0'])).2 = 1000 := by
      decide
    have h2 : digitsToNat ['0', '0'] = 0 := by decide
    have h3 : (readIntPart (stripCommas ['1', ',', '0', '0', '0'])).1 = false := by decide
    rw [h1, h2, h3]
    norm_num
  exact ⟨by decide, hv1,
    c2_amended_parse_value "- 1,000.00" ['-', '1', ',', '0', '0', '0'] ['0', '0'] (-1000)
      (by decide) hv1,
    c2_amended_parse_value "Total: 1,000.00" ['1', ',', '0', '0', '0'] ['0', '0'] 1000
      (by decide) hv2,
    by decide⟩

/-- C2 counterexample: `"-\t1.00"` begins with a minus sign followed by
whitespace (a tab), but the source only normalizes the exact prefix
`'- '` (minus, one space), so the sign is lost and the result is +1.00
instead of the −1.00 the claim's whitespace rule would give. -/
theorem c2_counterexample :
    clean_amount "-\t1.00" = Except.ok ⟨false, 100, 2⟩ ∧
      val ⟨false, 100, 2⟩ = 1 ∧ (1 : ℚ) ≠ -1 := by
  refine ⟨by decide, ?_, by norm_num⟩
  norm_num [val, sgnMant]

/-- C3 (amended): `clean_amount` fails with the regex `ParseError`
(`ValueError`) exactly when the normalized string has no trailing match of
`[\d,-]+\.\d+` (at least one digit/comma/minus is required before the
point); when such a match exists, it succeeds iff the comma-stripped
integer part is an optional minus followed only by digits, and otherwise
fails with a `Decimal` conversion error instead. -/
theorem c3_amended_error_characterization (s : String) :
    (clean_amount s = Except.error CleanErr.noMatch ↔
      trailingMatch (normalizeMinus s) = none) ∧
    ((∃ d, clean_amount s = Except.ok d) ↔
      ∃ pre frac, trailingMatch (normalizeMinus s) = some (pre, frac) ∧
        validIntPart (stripCommas pre) = true) := by
  cases hm : trailingMatch (normalizeMinus s) with
  | none => simp [clean_amount_of_noMatch s hm, hm]
  | some pf =>
    obtain ⟨pre, frac⟩ := pf
    have he := clean_amount_of_match s pre frac hm
    by_cases hv : ((readIntPart (stripCommas pre)).2).all Char.isDigit = true
    · rw [if_pos hv] at he
      constructor
      · simp [he, hm]
      · simp only [he, hm]
        constructor
        · intro _
          exact ⟨pre, frac, rfl, hv⟩
        · intro _
          exact ⟨_, rfl⟩
    · rw [if_neg hv] at he
      constructor
      · simp [he, hm]
      · simp only [he, hm]
        constructor
        · rintro ⟨d, hd⟩
          cases hd
        · rintro ⟨pre2, frac2, hm2, hvd⟩
          have hpf := Option.some.inj hm2
          cases hpf
          unfold validIntPart at hvd
          exact absurd hvd hv

/-- C5: `validate_transaction_table_columns` accepts a header iff it has
exactly four columns and each case-normalized column name contains all of
its required keywords as substrings (column 4 needs both "AMOUNT" and
"BAHT"); rejection is a plain `false`, never an exception. -/
theorem c5_schema_iff (header : List String) :
    validate_transaction_table_columns header = true ↔
      ∃ a b c d, header = [a, b, c, d] ∧
        "TRANS. DATE".toList <:+: (upperStr a).toList ∧
        "POSTING DATE".toList <:+: (upperStr b).toList ∧
        "DESCRIPTION".toList <:+: (upperStr c).toList ∧
        ("AMOUNT".toList <:+: (upperStr d).toList ∧ "BAHT".toList <:+: (upperStr d).toList) := by
  constructor
  · intro h
    unfold validate_transaction_table_columns at h
    rw [Bool.and_eq_true] at h
    obtain ⟨hlen, hall⟩ := h
    obtain ⟨a, b, c, d, rfl⟩ := list_len4 header (by simpa using hlen)
    refine ⟨a, b, c, d, rfl, ?_⟩
    simp only [expectedKeywords, containsSub, List.zip_cons_cons, List.zip_nil_right,
      List.zip_nil_left, List.all_cons, List.all_nil, Bool.and_eq_true,
      decide_eq_true_eq, Bool.and_true] at hall
    tauto
  · rintro ⟨a, b, c, d, rfl, h1, h2, h3, h4, h5⟩
    unfold validate_transaction_table_columns
    simp only [String.toList] at h1 h2 h3 h4 h5
    simp [expectedKeywords, containsSub, h1, h2, h3, h4, h5]

/-- C7: `filter_payment_transactions` keeps the rows, unchanged and in
order, whose amount is not strictly negative or whose description does not
start (case-sensitively) with the literal prefix "Payment"; it removes
exactly the rows with a negative amount and a "Payment"-prefixed
description. -/
theorem c7_filter_characterization (rows : List TxRow) :
    filter_payment_transactions rows = rows.filter
      (fun r => decide ¬(val r.amount < 0 ∧ "Payment".toList <+: r.desc.toList)) := by
  unfold filter_payment_transactions
  apply List.filter_congr
  intro r _
  rw [isPrefixOf_eq_decide]
  have e1 : decide (sgnMant r.amount < 0) = decide (val r.amount < 0) := by
    simp [decide_eq_decide, sgnMant_neg_iff]
  rw [e1]
  by_cases h1 : val r.amount < 0 <;> by_cases h2 : "Payment".toList <+: r.desc.toList <;>
    simp [h1, h2]

/-- C3 counterexample: `"2-3.00"` has a trailing match of the claim's
pattern, yet `clean_amount` raises (a `Decimal` conversion error); and
`"a.5"` matches the claim's pattern (whose digit/comma/minus prefix is
"optional"), yet `clean_amount` raises the `ParseError`, because the
source regex requires that prefix to be nonempty. -/
theorem c3_counterexample :
    (specClaimPattern "2-3.00" = true ∧
      clean_amount "2-3.00" = Except.error CleanErr.invalidDecimal) ∧
    (specClaimPattern "a.5" = true ∧
      clean_amount "a.5" = Except.error CleanErr.noMatch) := by
  exact ⟨⟨by decide, by decide⟩, ⟨by decide, by decide⟩⟩

theorem upsert_mem {k : String} {v : List String} {l : List (String × List String)}
    {p : String × List String} (h : p ∈ upsert k v l) : p = (k, v) ∨ p ∈ l := by
  induction l with
  | nil => exact Or.inl (by simpa [upsert] using h)
  | cons a rest ih =>
    obtain ⟨k2, v2⟩ := a
    by_cases hk : k2 = k
    · rw [upsert, if_pos hk] at h
      rcases List.mem_cons.1 h with h1 | h2
      · exact Or.inl h1
      · exact Or.inr (List.mem_cons_of_mem _ h2)
    · rw [upsert, if_neg hk] at h
      rcases List.mem_cons.1 h with h1 | h2
      · exact Or.inr (h1 ▸ List.mem_cons_self _ _)
      · rcases ih h2 with h3 | h4
        · exact Or.inl h3
        · exact Or.inr (List.mem_cons_of_mem _ h4)

theorem foldl_upsert_mem (runs : List (String × List (List (Option String)))) :
    ∀ (acc : List (String × List String)) (p : String × List String),
      p ∈ runs.foldl (fun acc r => upsert r.1 (mergeRunColumn r.2) acc) acc →
      p ∈ acc ∨ ∃ r ∈ runs, p = (r.1, mergeRunColumn r.2) := by
  induction runs with
  | nil => intro acc p h; exact Or.inl h
  | cons r rs ih =>
    intro acc p h
    rw [List.foldl_cons] at h
    rcases ih _ p h with hin | ⟨r2, hr2, hp⟩
    · rcases upsert_mem hin with h1 | h2
      · exact Or.inr ⟨r, List.mem_cons_self _ _, h1⟩
      · exact Or.inl h2
    · exact Or.inr ⟨r2, List.mem_cons_of_mem _ hr2, hp⟩

theorem intercalate_go_foldl (l : List (Option String)) : ∀ (acc : String),
    String.intercalate.go acc " " (l.map cellStr)
      = l.foldl (fun a x => a ++ " " ++ cellStr x) acc := by
  induction l with
  | nil => intro acc; rfl
  | cons x xs ih =>
    intro acc
    simp only [List.map_cons, List.foldl_cons, String.intercalate.go]
    exact ih _

theorem mergeCells_eq_intercalate (cells : List (Option String)) :
    mergeCells cells = String.intercalate " " (cells.map cellStr) := by
  cases cells with
  | nil => rfl
  | cons c cs =>
    unfold mergeCells
    simp only [List.map_cons, String.intercalate]
    exact (intercalate_go_foldl cs (cellStr c)).symm

/-- C4 (amended): every column produced by `clean_columns` is the merge of
one run of adjacent same-named source columns, and each of its cells is the
space-separated concatenation of the run's cell string forms (a null cell
prints as "nan"); the whole merged cell is then replaced by the empty
string only when the entire concatenation equals "nan" — a "nan" part
inside a longer concatenation stays literal. -/
theorem c4_amended_merge_cells (cols : RawTable) (name : String) (col : List String)
    (h : (name, col) ∈ clean_columns cols) :
    ∃ cs, (name, cs) ∈ groupRuns cols ∧
      col = cs.transpose.map (fun cells =>
        if String.intercalate " " (cells.map cellStr) = "nan" then ""
        else String.intercalate " " (cells.map cellStr)) := by
  unfold clean_columns at h
  rcases foldl_upsert_mem (groupRuns cols) [] _ h with h0 | ⟨r, hr, hp⟩
  · cases h0
  · injection hp with hn hc
    subst hn
    subst hc
    refine ⟨r.2, hr, ?_⟩
    unfold mergeRunColumn replaceNanCell
    simp only [mergeCells_eq_intercalate]

/-- C4 witness: the amended theorem applied to a two-column "D"-run whose
first cell is null: the merged cell is "nan x". -/
theorem c4_witness :
    (("D", ["nan x"]) ∈ clean_columns [("D", [none]), ("D", [some "x"])]) ∧
    ∃ cs, ("D", cs) ∈ groupRuns [("D", [(none : Option String)]), ("D", [some "x"])] ∧
      ["nan x"] = cs.transpose.map (fun cells =>
        if String.intercalate " " (cells.map cellStr) = "nan" then ""
        else String.intercalate " " (cells.map cellStr)) :=
  ⟨by decide, c4_amended_merge_cells _ "D" ["nan x"] (by decide)⟩

/-- C4 counterexample: merging two adjacent "D" columns over a row whose
cells are null and "x" yields the literal cell "nan x": the null cell is
not individually treated as an empty string (which would give " x" or
"x"); pandas `replace('nan', '', regex=False)` only clears a cell wholly
equal to "nan". -/
theorem c4_counterexample :
    clean_columns [("D", [none]), ("D", [some "x"])] = [("D", ["nan x"])] ∧
      ("nan x" : String) ≠ " x" ∧ ("nan x" : String) ≠ "x" :=
  ⟨by decide, by decide, by decide⟩

theorem all_some_map (r : List String) : (r.map some).all Option.isSome = true := by
  induction r with
  | nil => rfl
  | cons a t ih => simpa using ih

/-- C10: after `clean_columns` every cell is a string (a null source cell
was rendered "nan", and was replaced by the empty string only when the
whole merged cell equals "nan"), so the sanitizer's drop-null-rows step
keeps every row, and `clean_transaction_data` coincides with its own
second phase: rows are removed solely by the date-validity and
amount-validity filters. -/
theorem c10_null_drop_vacuous (cols : RawTable) :
    ((liftTable (toStrTable (clean_columns cols))).rows.filter
        (fun r => r.all Option.isSome)
      = (liftTable (toStrTable (clean_columns cols))).rows) ∧
    clean_transaction_data (liftTable (toStrTable (clean_columns cols)))
      = sanitizeRest (liftTable (toStrTable (clean_columns cols))) := by
  have hall : ∀ r ∈ (liftTable (toStrTable (clean_columns cols))).rows,
      r.all Option.isSome = true := by
    intro r hr
    simp only [liftTable, List.mem_map] at hr
    obtain ⟨r0, _, rfl⟩ := hr
    exact all_some_map r0
  have hfix : (liftTable (toStrTable (clean_columns cols))).rows.filter
      (fun r => r.all Option.isSome)
      = (liftTable (toStrTable (clean_columns cols))).rows :=
    List.filter_eq_self.2 hall
  refine ⟨hfix, ?_⟩
  unfold clean_transaction_data
  rw [hfix]

theorem beq_false_of_ne {a b : String} (h : a ≠ b) : (a == b) = false :=
  beq_eq_false_iff_ne.2 h

/-- Header part of the sanitizer: when the second column name occurs only
at position 1 in a four-name header, dropping by that label removes
exactly the second column. -/
theorem sanitize_header_eq (a b c d : String)
    (huniq : (b : String) ∉ [a, c, d]) :
    ([a, b, c, d].filter (fun n => !(n == ([a, b, c, d].getD 1 ""))))
      = [a, c, d] := by
  have hba : a ≠ b := fun h => huniq (by simp [h])
  have hbc : c ≠ b := fun h => huniq (by simp [h])
  have hbd : d ≠ b := fun h => huniq (by simp [h])
  simp [List.filter_cons, beq_false_of_ne hba, beq_false_of_ne hbc, beq_false_of_ne hbd]

/-- C6 (amended): on a four-column table whose second column name is
unique among the four, `clean_transaction_data` removes exactly the second
column and keeps exactly the rows with no missing cell, a valid date in
the first column, and a valid amount in the last column, each kept row
being the original row minus its second cell.  (When the second name is
duplicated, the pandas label-based drop removes every column with that
name instead — see the counterexample.) -/
theorem c6_amended_sanitize (hdr : List String) (rows : List (List (Option String)))
    (hlen : hdr.length = 4) (hrows : ∀ r ∈ rows, r.length = 4)
    (huniq : hdr.getD 1 "" ∉ hdr.eraseIdx 1) :
    clean_transaction_data ⟨hdr, rows⟩ =
      ⟨hdr.eraseIdx 1,
        (rows.filter (fun r => r.all Option.isSome &&
            (validDateCell (r.getD 0 none) && validAmountCell (r.getD 3 none)))).map
          (fun r => r.eraseIdx 1)⟩ := by
  obtain ⟨a, b, c, d, rfl⟩ := list_len4 hdr hlen
  have huniq2 : (b : String) ∉ [a, c, d] := huniq
  unfold clean_transaction_data sanitizeRest
  refine congrArg₂ OTable.mk ?_ ?_
  · exact sanitize_header_eq a b c d huniq2
  · rw [List.filter_map, List.filter_filter]
    refine Eq.trans (congrArg _ (List.filter_congr ?_)) (List.map_congr_left ?_)
    · intro r hr
      obtain ⟨x, y, z, w, rfl⟩ := list_len4 r (hrows r hr)
      have hba : a ≠ b := fun h => huniq2 (by simp [h])
      have hbc : c ≠ b := fun h => huniq2 (by simp [h])
      have hbd : d ≠ b := fun h => huniq2 (by simp [h])
      simp only [Function.comp]
      simp only [List.filter_cons, List.zip_cons_cons, List.zip_nil_right, List.filter_nil,
        beq_false_of_ne hba, beq_false_of_ne hbc, beq_false_of_ne hbd, beq_self_eq_true]
      cases h1 : ([x, y, z, w] : List (Option String)).all Option.isSome <;>
        cases h2 : validDateCell x <;> cases h3 : validAmountCell w <;>
        simp_all [List.getD, List.getLast?]
    · intro r hr
      obtain ⟨x, y, z, w, rfl⟩ := list_len4 r (hrows r (List.mem_filter.1 hr).1)
      have hba : a ≠ b := fun h => huniq2 (by simp [h])
      have hbc : c ≠ b := fun h => huniq2 (by simp [h])
      have hbd : d ≠ b := fun h => huniq2 (by simp [h])
      simp [List.filter_cons, beq_false_of_ne hba, beq_false_of_ne hbc,
        beq_false_of_ne hbd, List.eraseIdx]

/-- C6 witness: the amended sanitizer characterization applied to a
concrete four-column table with one complete valid row and one row with a
missing cell. -/
theorem c6_witness :
    (∀ r ∈ ([[some "02/01/23", some "03/01/23", some "Coffee", some "100.50"],
        [some "", none, some "End", some "999.00"]] : List (List (Option String))),
      r.length = 4) ∧
    (["TRANS. DATE", "POSTING DATE", "DESCRIPTION", "AMOUNT (BAHT)"].getD 1 ""
        ∉ ["TRANS. DATE", "POSTING DATE", "DESCRIPTION", "AMOUNT (BAHT)"].eraseIdx 1) ∧
    clean_transaction_data
        ⟨["TRANS. DATE", "POSTING DATE", "DESCRIPTION", "AMOUNT (BAHT)"],
          [[some "02/01/23", some "03/01/23", some "Coffee", some "100.50"],
           [some "", none, some "End", some "999.00"]]⟩ =
      ⟨["TRANS. DATE", "POSTING DATE", "DESCRIPTION", "AMOUNT (BAHT)"].eraseIdx 1,
        (([[some "02/01/23", some "03/01/23", some "Coffee", some "100.50"],
            [some "", none, some "End", some "999.00"]] : List (List (Option String))).filter
          (fun r => r.all Option.isSome &&
            (validDateCell (r.getD 0 none) && validAmountCell (r.getD 3 none)))).map
          (fun r => r.eraseIdx 1)⟩ :=
  ⟨by decide, by decide,
    c6_amended_sanitize _ _ (by decide) (by decide) (by decide)⟩

/-- C6 counterexample: a four-column table whose first two columns share
the name "D".  The claim says only the second column is removed (leaving
three columns), but `df.drop(df.columns[[1]], axis=1)` drops by label, so
both "D" columns disappear and only two columns remain. -/
theorem c6_counterexample :
    (clean_transaction_data
        ⟨["D", "D", "X", "Y"], [[some "1", some "2", some "3", some "4"]]⟩).header
      = ["X", "Y"] ∧ (["X", "Y"] : List String) ≠ ["D", "X", "Y"] :=
  ⟨by decide, by decide⟩

/-- C8: whenever the pipeline reaches the reconciliation check and the
check fails (the context sum of the coerced amounts added to the starting
balance differs from the ending balance), the run ends in
`reconciliationError`: the payment filter, the sign flip and the CSV
export are never reached and no CSV value is produced. -/
theorem c8_reconciliation_aborts (ts : List RawTable) (ct : StrTable)
    (s e : PyDecimal) (txs : List TxRow)
    (h1 : combineTables (acceptedTables ts) = some ct)
    (h2 : anchorsOf ct = Except.ok (s, e))
    (h3 : convert_data_types (clean_transaction_data (liftTable ct)) = Except.ok txs)
    (h4 : dEq (dAdd s (dSum (txs.map (fun r => r.amount)))) e = false) :
    process_pdf ts = Outcome.reconciliationError ∧
      ∀ csv, process_pdf ts ≠ Outcome.saved csv := by
  have hp : process_pdf ts = Outcome.reconciliationError := by
    unfold process_pdf
    rw [h1]
    simp only [h2, h3, h4, Bool.false_eq_true, if_false]
  refine ⟨hp, fun csv hc => ?_⟩
  rw [hp] at hc
  cases hc

/-- C8 witness: on `exampleImbalancedDoc` (0.00 + 100.50 ≠ 999.00) the
run aborts with `reconciliationError` and no CSV is produced. -/
theorem c8_witness :
    combineTables (acceptedTables [exampleImbalancedDoc]) =
      some ⟨["TRANS. DATE", "POSTING DATE", "DESCRIPTION", "AMOUNT (BAHT)"],
        [["", "", "Start", "0.00"],
         ["02/01/23", "03/01/23", "Coffee", "100.50"],
         ["", "", "End", "999.00"]]⟩ ∧
    process_pdf [exampleImbalancedDoc] = Outcome.reconciliationError ∧
      ∀ csv, process_pdf [exampleImbalancedDoc] ≠ Outcome.saved csv :=
  ⟨by decide,
    c8_reconciliation_aborts [exampleImbalancedDoc]
      ⟨["TRANS. DATE", "POSTING DATE", "DESCRIPTION", "AMOUNT (BAHT)"],
        [["", "", "Start", "0.00"],
         ["02/01/23", "03/01/23", "Coffee", "100.50"],
         ["", "", "End", "999.00"]]⟩
      ⟨false, 0, 2⟩ ⟨false, 99900, 2⟩
      [⟨⟨2023, 1, 2⟩, "Coffee", ⟨false, 10050, 2⟩⟩]
      (by decide) (by decide) (by decide) (by decide)⟩

theorem trailingMatch_frac_nonempty (s : String) (pre frac : List Char)
    (hm : trailingMatch s = some (pre, frac)) : frac ≠ [] := by
  simp only [trailingMatch] at hm
  split at hm
  · split at hm
    · cases hm
    · have h2 := Option.some.inj hm
      injection h2 with h3 h4
      intro hfrac
      rw [← h4] at hfrac
      simp at hfrac
  · cases hm

theorem clean_amount_scale_pos (s : String) (d : PyDecimal)
    (h : clean_amount s = Except.ok d) : 1 ≤ d.scale := by
  cases hm : trailingMatch (normalizeMinus s) with
  | none =>
    rw [clean_amount_of_noMatch s hm] at h
    cases h
  | some pf =>
    obtain ⟨pre, frac⟩ := pf
    rw [clean_amount_of_match s pre frac hm] at h
    by_cases hv : ((readIntPart (stripCommas pre)).2).all Char.isDigit = true
    · rw [if_pos hv] at h
      injection h with h2
      rw [← h2]
      exact List.length_pos.2 (trailingMatch_frac_nonempty _ _ _ hm)
    · rw [if_neg hv] at h
      cases h

theorem coerceRow_amount (r : List (Option String)) (x : TxRow)
    (h : coerceRow r = Except.ok x) :
    ∃ s, clean_amount s = Except.ok x.amount := by
  unfold coerceRow at h
  split at h
  · split at h
    · injection h with h2
      rw [← h2]
      exact ⟨_, by assumption⟩
    · cases h
  · cases h

theorem coerceRows_amounts (rows : List (List (Option String))) (txs : List TxRow)
    (h : coerceRows rows = Except.ok txs) :
    ∀ t ∈ txs, ∃ s, clean_amount s = Except.ok t.amount := by
  induction rows generalizing txs with
  | nil =>
    simp only [coerceRows] at h
    injection h with h2
    rw [← h2]
    intro t ht
    cases ht
  | cons r rs ih =>
    simp only [coerceRows] at h
    split at h
    · injection h with h2
      rw [← h2]
      intro t ht
      rcases List.mem_cons.1 ht with rfl | hmem
      · exact coerceRow_amount r t (by assumption)
      · exact ih _ (by assumption) t hmem
    · cases h

theorem dNegate_fields (d : PyDecimal) (h : d.mant < 10 ^ 28) :
    (dNegate d).scale = d.scale ∧ (dNegate d).mant = d.mant := by
  unfold dNegate roundCtx
  rw [if_pos h]
  exact ⟨rfl, rfl⟩

theorem digitChar_isDigit (m : Nat) (h : m < 10) : (digitChar m).isDigit = true := by
  interval_cases m <;> decide

theorem natDigitsF_all_digit (fuel : Nat) :
    ∀ n, n ≤ fuel → ∀ c ∈ natDigitsF fuel n, c.isDigit = true := by
  induction fuel with
  | zero =>
    intro n hn c hc
    simp only [natDigitsF, List.mem_singleton] at hc
    subst hc
    exact digitChar_isDigit _ (by omega)
  | succ fuel ih =>
    intro n hn c hc
    simp only [natDigitsF] at hc
    split at hc
    · simp only [List.mem_singleton] at hc
      subst hc
      exact digitChar_isDigit _ (by omega)
    · rcases List.mem_append.1 hc with h1 | h2
      · have hdiv : n / 10 ≤ fuel := by
          have := Nat.div_lt_self (show 0 < n by omega) (show 1 < 10 by omega)
          omega
        exact ih (n / 10) hdiv c h1
      · simp only [List.mem_singleton] at h2
        subst h2
        exact digitChar_isDigit _ (Nat.mod_lt _ (by omega))

theorem natDigits_all_digit (n : Nat) : ∀ c ∈ natDigits n, c.isDigit = true :=
  natDigitsF_all_digit n n (le_refl n)

theorem natDigitsF_ne_nil (fuel n : Nat) : natDigitsF fuel n ≠ [] := by
  cases fuel with
  | zero => simp [natDigitsF]
  | succ fuel =>
    simp only [natDigitsF]
    split <;> simp

theorem padDigits_all (mant scale : Nat) :
    ∀ c ∈ padDigits mant scale, c.isDigit = true := by
  unfold padDigits
  split
  · intro c hc
    rcases List.mem_append.1 hc with h1 | h2
    · rw [List.eq_of_mem_replicate h1]
      decide
    · exact natDigits_all_digit mant c h2
  · exact natDigits_all_digit mant

theorem padDigits_len (mant scale : Nat) : scale < (padDigits mant scale).length := by
  have hpos : 0 < (natDigits mant).length :=
    List.length_pos.2 (natDigitsF_ne_nil mant mant)
  unfold padDigits
  split
  · rename_i hle
    rw [List.length_append, List.length_replicate]
    omega
  · rename_i hgt
    omega

theorem takeWhile_append_stop (p : Char → Bool) (l1 : List Char) (x : Char) (t : List Char)
    (h1 : ∀ c ∈ l1, p c = true) (hx : p x = false) :
    (l1 ++ x :: t).takeWhile p = l1 ∧ (l1 ++ x :: t).dropWhile p = x :: t := by
  induction l1 with
  | nil => simp [List.takeWhile_cons, List.dropWhile_cons, hx]
  | cons a l ih =>
    have ha : p a = true := h1 a (List.mem_cons_self _ _)
    have ih2 := ih (fun c hc => h1 c (List.mem_cons_of_mem _ hc))
    simp [List.takeWhile_cons, List.dropWhile_cons, ha, ih2.1, ih2.2]

theorem toList_mk (l : List Char) : (String.mk l).toList = l := rfl

theorem dStr_fracDigits (d : PyDecimal) (h : 1 ≤ d.scale) :
    fracDigitsOfString (dStr d) = some d.scale := by
  have hlen : d.scale < (padDigits d.mant d.scale).length := padDigits_len _ _
  have hall := padDigits_all d.mant d.scale
  simp only [dStr, fracDigitsOfString]
  rw [if_neg (by omega : ¬ d.scale = 0)]
  set pd := padDigits d.mant d.scale with hpd
  set tk := pd.take (pd.length - d.scale) with htkdef
  set dp := pd.drop (pd.length - d.scale) with hdpdef
  have hdp_len : dp.length = d.scale := by
    rw [hdpdef, List.length_drop]
    omega
  have hdp_all : ∀ c ∈ dp.reverse, c.isDigit = true := by
    intro c hc
    exact hall c (List.mem_of_mem_drop (List.mem_reverse.1 hc))
  have hstop := takeWhile_append_stop Char.isDigit dp.reverse '.' tk.reverse hdp_all (by decide)
  have hstop2 := takeWhile_append_stop Char.isDigit dp.reverse '.' (tk.reverse ++ ['-'])
    hdp_all (by decide)
  cases hneg : d.neg
  · have hrev : ((tk ++ '.' :: dp) : List Char).reverse = dp.reverse ++ '.' :: tk.reverse := by
      simp
    simp only [hneg, Bool.false_eq_true, if_false, toList_mk, hrev, hstop.1, hstop.2]
    simp [hdp_len]
  · have hrev : (('-' :: (tk ++ '.' :: dp)) : List Char).reverse
        = dp.reverse ++ '.' :: (tk.reverse ++ ['-']) := by
      simp
    simp only [hneg, if_true, toList_mk, hrev, hstop2.1, hstop2.2]
    simp [hdp_len]

theorem clean_transaction_data_header (t : OTable) (hlen : t.header.length = 4)
    (huniq : t.header.getD 1 "" ∉ t.header.eraseIdx 1) :
    (clean_transaction_data t).header = t.header.eraseIdx 1 := by
  obtain ⟨a, b, c, d, hh⟩ := list_len4 t.header hlen
  rw [hh] at huniq
  unfold clean_transaction_data sanitizeRest
  simp only [hh]
  exact sanitize_header_eq a b c d huniq

/-- C9 (amended): a successfully reconciled run writes a CSV value with a
UTF-8 byte-order mark, a header row equal to the merged header minus the
PostingDate position (three names when the four names are distinct at
position 1), and one row per final transaction; each amount cell is
`str()` of the flipped decimal, which keeps the fraction-digit count of
the source text — at least one digit, but not necessarily two.  (The
exactness hypothesis `hsmall` keeps the sign flip free of 28-digit context
rounding.) -/
theorem c9_amended_csv (ts : List RawTable) (ct : StrTable) (s e : PyDecimal)
    (txs : List TxRow)
    (h1 : combineTables (acceptedTables ts) = some ct)
    (h2 : anchorsOf ct = Except.ok (s, e))
    (h3 : convert_data_types (clean_transaction_data (liftTable ct)) = Except.ok txs)
    (h4 : dEq (dAdd s (dSum (txs.map (fun r => r.amount)))) e = true)
    (hh4 : ct.header.length = 4)
    (huniq : ct.header.getD 1 "" ∉ ct.header.eraseIdx 1)
    (hsmall : ∀ t ∈ txs, t.amount.mant < 10 ^ 28) :
    process_pdf ts = Outcome.saved (save_to_csv (clean_transaction_data (liftTable ct)).header
        (flip_amount_sign (filter_payment_transactions txs))) ∧
    (save_to_csv (clean_transaction_data (liftTable ct)).header
        (flip_amount_sign (filter_payment_transactions txs))).bom = true ∧
    (save_to_csv (clean_transaction_data (liftTable ct)).header
        (flip_amount_sign (filter_payment_transactions txs))).headerRow
      = ct.header.eraseIdx 1 ∧
    (save_to_csv (clean_transaction_data (liftTable ct)).header
        (flip_amount_sign (filter_payment_transactions txs))).dataRows.length
      = (filter_payment_transactions txs).length ∧
    ∀ row ∈ (save_to_csv (clean_transaction_data (liftTable ct)).header
        (flip_amount_sign (filter_payment_transactions txs))).dataRows,
      ∃ k, fracDigitsOfString (row.getD 2 "") = some k ∧ 1 ≤ k := by
  refine ⟨?_, rfl, ?_, ?_, ?_⟩
  · unfold process_pdf
    rw [h1]
    simp only [h2, h3, h4, if_true]
  · exact clean_transaction_data_header (liftTable ct) hh4 huniq
  · simp [save_to_csv, flip_amount_sign]
  · intro row hrow
    simp only [save_to_csv, List.mem_map] at hrow
    obtain ⟨r, hr, rfl⟩ := hrow
    simp only [flip_amount_sign, List.mem_map] at hr
    obtain ⟨t0, ht0, rfl⟩ := hr
    have htxs : t0 ∈ txs := (List.mem_filter.1 ht0).1
    obtain ⟨s0, hs0⟩ := coerceRows_amounts _ _ h3 t0 htxs
    have hscale0 : 1 ≤ t0.amount.scale := clean_amount_scale_pos s0 t0.amount hs0
    have hfields := dNegate_fields t0.amount (hsmall t0 htxs)
    have hscale : 1 ≤ (dNegate t0.amount).scale := by
      rw [hfields.1]
      exact hscale0
    refine ⟨(dNegate t0.amount).scale, ?_, hscale⟩
    exact dStr_fracDigits _ hscale

/-- C9 witness: the amended theorem applied to `exampleBalancedDoc`: the
run reconciles (0.0 + 100.5 = 100.5) and saves a CSV with the three
retained names and one transaction row. -/
theorem c9_witness :
    combineTables (acceptedTables [exampleBalancedDoc]) =
      some ⟨["TRANS. DATE", "POSTING DATE", "DESCRIPTION", "AMOUNT (BAHT)"],
        [["", "", "Start", "0.0"],
         ["02/01/23", "03/01/23", "Coffee", "100.5"],
         ["", "", "End", "100.5"]]⟩ ∧
    process_pdf [exampleBalancedDoc] = Outcome.saved (save_to_csv
        (clean_transaction_data (liftTable
          ⟨["TRANS. DATE", "POSTING DATE", "DESCRIPTION", "AMOUNT (BAHT)"],
            [["", "", "Start", "0.0"],
             ["02/01/23", "03/01/23", "Coffee", "100.5"],
             ["", "", "End", "100.5"]]⟩)).header
        (flip_amount_sign (filter_payment_transactions
          [⟨⟨2023, 1, 2⟩, "Coffee", ⟨false, 1005, 1⟩⟩]))) :=
  ⟨by decide,
    (c9_amended_csv [exampleBalancedDoc]
      ⟨["TRANS. DATE", "POSTING DATE", "DESCRIPTION", "AMOUNT (BAHT)"],
        [["", "", "Start", "0.0"],
         ["02/01/23", "03/01/23", "Coffee", "100.5"],
         ["", "", "End", "100.5"]]⟩
      ⟨false, 0, 1⟩ ⟨false, 1005, 1⟩
      [⟨⟨2023, 1, 2⟩, "Coffee", ⟨false, 1005, 1⟩⟩]
      (by decide) (by decide) (by decide) (by decide) (by decide) (by decide)
      (by decide)).1⟩

/-- C9 counterexample: `exampleBalancedDoc` reconciles and is exported,
but the single exported amount cell is "-100.5": one fraction digit, not
two, because `to_csv` serializes the parsed `Decimal` as-is, with no
two-digit formatting step. -/
theorem c9_counterexample :
    outcomeAmountCells (process_pdf [exampleBalancedDoc]) = some ["-100.5"] ∧
    fracDigitsOfString "-100.5" = some 1 ∧ (1 : Nat) ≠ 2 :=
  ⟨by decide, by decide, by decide⟩

end StatementParser
